import Mathlib

/-!
# Hook registry and ordered execution (runtime/conf.go)

A shallow embedding of `runtime/conf.go` of docker-setup: the configuration
`Conf` (a registry of named hooks and the one-shot flag), its construction from
the process environment, the two fixed hook sequences and the diagnostic log.

Conventions of the embedding.

* A Go `map[string]Hook` is a list of key/hook entries (`GoMap`). A lookup of an
  absent key yields `none`, which stands for the nil interface value that Go
  returns there. The stored values are hooks, never a nil interface (the only
  writes in `conf.go` store what a constructor returned). The order of the list
  is the order in which a `range` loop visits the entries; Go leaves that order
  unspecified, and every statement below holds for every list.
* A `GoMap` is an allocated map, and a `Conf` is a configuration whose registry
  is allocated, as `NewConf` makes it. A Go value of type `Conf` may also hold
  the nil map (the zero value `Conf{}`): `ConfValue` is the type of all these
  values. Reading the nil map is reading the empty map, so the methods that only
  read are given on `Conf`; writing to the nil map panics, so the two methods
  that write are given on `ConfValue` as well, where `none` is the panic.
* A Go map is a reference: a write made through a value receiver is seen by the
  caller. The methods that write to the registry therefore return the `Conf`
  the caller holds after the call.
* The `Hook` interface and the three hook constructors are declared outside
  `conf.go`; they are parameters (`HookOps`, `HookCtors`).
* Side effects are explicit: a run is a function on `Exec`, which carries the
  outside world the hooks act on, the record of hook method invocations and the
  records written to the logger.
-/

namespace Setup

/-! ## Environment -/

/-- Process environment: the value of each variable that is set. -/
abbrev Environ := String → Option String

/-- Go `os.LookupEnv(key)`: the value and whether the variable is set; an unset
variable gives the empty string and `false`. -/
def LookupEnv (environ : Environ) (key : String) : String × Bool :=
  match environ key with
  | some v => (v, true)
  | none => ("", false)

/-! ## Go maps with string keys -/

/-- Entries of a Go `map[string]V`, in the order a `range` loop visits them. -/
abbrev GoMap (V : Type) := List (String × V)

namespace GoMap

variable {V : Type}

/-- Go `make(map[string]V, 0)`: the empty map. -/
def make : GoMap V := []

/-- Go `m[k]` read: the stored value, or `none` (the zero value, a nil
interface) when the key is absent. -/
def get (m : GoMap V) (k : String) : Option V :=
  List.lookup k m

/-- Go `m[k] = v`: any previous entry for `k` is replaced. -/
def set (m : GoMap V) (k : String) (v : V) : GoMap V :=
  (k, v) :: m.filter (fun e => e.1 != k)

/-- Keys of the map, in iteration order. -/
def keys (m : GoMap V) : List String :=
  m.map Prod.fst

/-- A list of entries is a map when no key occurs twice. -/
def WF (m : GoMap V) : Prop :=
  m.keys.Nodup

end GoMap

/-! ## Hooks -/

/-- The stage of a hook method: `RunInit` or `RunExit`. -/
inductive Stage where
  | init
  | exit
deriving DecidableEq, Repr

/-- Modelled from the spec: the `Hook` interface, declared outside `conf.go`.
Section 4.1 gives it the operations `RunInit`, `RunExit` (each succeeds or fails
with an error, and may act on the outside world) and a description (`String` in
`conf.go`). `H` is the type of hook values and `W` the outside world; a result
`none` is a nil error and `some e` an error whose text is `e`. -/
structure HookOps (H W : Type) where
  RunInit : H → W → Option String × W
  RunExit : H → W → Option String × W
  String : H → List String

/-- Modelled from the spec: the hook constructors `NewUserHooks`,
`NewIPRouteHooks` and `NewNat4Hooks`, declared outside `conf.go`. Each may read
the process environment, which is their first argument here. -/
structure HookCtors (H : Type) where
  NewUserHooks : Environ → String → String → String → String → H
  NewIPRouteHooks : Environ → String → String → String → String → H
  NewNat4Hooks : Environ → H

/-! ## Configuration -/

/-- Go `type Conf struct { hooksList map[string]Hook; oneshot bool }`. -/
structure Conf (H : Type) where
  hooksList : GoMap H
  oneshot : Bool

/-- One invocation of a hook method: the registry key it was looked up under,
the hook, the stage, and the error it returned. -/
structure Call (H : Type) where
  name : String
  hook : H
  stage : Stage
  err : Option String

/-- What was invoked, without the outcome. -/
def Call.target {H : Type} (c : Call H) : String × H × Stage :=
  (c.name, c.hook, c.stage)

/-- State of a run: the outside world, the hook methods invoked so far and the
records written to the logger so far (each is the formatted message of one
`log` call). -/
structure Exec (W H : Type) where
  world : W
  calls : List (Call H)
  log : List String

section Operations

variable {H W : Type}

/-- Go `log.Printf` with an already formatted message. -/
def Exec.printf (s : Exec W H) (msg : String) : Exec W H :=
  { s with log := s.log ++ [msg] }

/-- Go `log.Println(msg)`: the operand followed by a newline. -/
def Exec.println (s : Exec W H) (msg : String) : Exec W H :=
  { s with log := s.log ++ [msg ++ "\n"] }

/-- `Conf.Oneshot`: return true if Oneshot is set. -/
def Conf.Oneshot (conf : Conf H) : Bool :=
  conf.oneshot

/-- `Conf.AddUserHooks`: add a new hook to the configuration. The receiver holds
an allocated registry; `ConfValue.AddUserHooks` is the method on every
receiver. -/
def Conf.AddUserHooks (k : HookCtors H) (environ : Environ) (conf : Conf H)
    (name : String) (env : String) : Conf H :=
  let hook : H := k.NewUserHooks environ
    (name ++ " init") (env ++ "_INIT_HOOK")
    (name ++ " exit") (env ++ "_EXIT_HOOK")
  { conf with hooksList := conf.hooksList.set name hook }

/-- `Conf.AddHooks`: add default hooks. The receiver holds an allocated
registry; `ConfValue.AddHooks` is the method on every receiver. -/
def Conf.AddHooks (k : HookCtors H) (environ : Environ) (conf : Conf H) : Conf H :=
  let iproute : H := k.NewIPRouteHooks environ
    "iproute init" "ROUTES_INIT"
    "iproute exit" "ROUTES_EXIT"
  let conf : Conf H := { conf with hooksList := conf.hooksList.set "iproute" iproute }
  let nat4 : H := k.NewNat4Hooks environ
  { conf with hooksList := conf.hooksList.set "nat4" nat4 }

/-- `NewConf`: create a new configuration from env variables. -/
def NewConf (k : HookCtors H) (environ : Environ) : Conf H :=
  let conf : Conf H := { hooksList := GoMap.make, oneshot := false }
  let conf := conf.AddHooks k environ
  let conf := conf.AddUserHooks k environ "pre" "PRE"
  let conf := conf.AddUserHooks k environ "post" "POST"
  let conf : Conf H := { conf with oneshot := false }
  let (oneshot, isset) := LookupEnv environ "ONESHOT"
  if isset && oneshot == "true" then { conf with oneshot := true } else conf

/-- The record `log.Printf("Error while running %s init hook: %s", name, err)`. -/
def initErrorRecord (name : String) (err : String) : String :=
  "Error while running " ++ name ++ " init hook: " ++ err

/-- The record `log.Printf("Error while running %s exit hook: %s", name, err)`. -/
def exitErrorRecord (name : String) (err : String) : String :=
  "Error while running " ++ name ++ " exit hook: " ++ err

/-- `Conf.RunInitHook`: run an init hook. -/
def Conf.RunInitHook (ops : HookOps H W) (conf : Conf H) (name : String)
    (s : Exec W H) : Exec W H :=
  match conf.hooksList.get name with
  | none => s
  | some h =>
    let (err, w) := ops.RunInit h s.world
    let s : Exec W H :=
      { s with world := w, calls := s.calls ++ [⟨name, h, Stage.init, err⟩] }
    match err with
    | none => s
    | some e => s.printf (initErrorRecord name e)

/-- `Conf.RunExitHook`: run an exit hook. -/
def Conf.RunExitHook (ops : HookOps H W) (conf : Conf H) (name : String)
    (s : Exec W H) : Exec W H :=
  match conf.hooksList.get name with
  | none => s
  | some h =>
    let (err, w) := ops.RunExit h s.world
    let s : Exec W H :=
      { s with world := w, calls := s.calls ++ [⟨name, h, Stage.exit, err⟩] }
    match err with
    | none => s
    | some e => s.printf (exitErrorRecord name e)

/-- `Conf.RunExitHooks`: run exit hooks. -/
def Conf.RunExitHooks (ops : HookOps H W) (conf : Conf H) (s : Exec W H) : Exec W H :=
  let s := conf.RunExitHook ops "pre" s
  let s := conf.RunExitHook ops "nat4" s
  let s := conf.RunExitHook ops "iproute" s
  conf.RunExitHook ops "post" s

/-- `Conf.RunInitHooks`: run init hooks. -/
def Conf.RunInitHooks (ops : HookOps H W) (conf : Conf H) (s : Exec W H) : Exec W H :=
  let s := conf.RunInitHook ops "pre" s
  let s := conf.RunInitHook ops "iproute" s
  let s := conf.RunInitHook ops "nat4" s
  conf.RunInitHook ops "post" s

/-- `Conf.Log`: log the configuration. -/
def Conf.Log (ops : HookOps H W) (conf : Conf H) (s : Exec W H) : Exec W H :=
  let s := s.println "Current configuration:"
  let s :=
    if conf.oneshot then s.printf "\t- mode oneshot is enabled"
    else s.printf "\t- mode oneshot is disabled"
  conf.hooksList.foldl
    (fun s e => (ops.String e.2).foldl (fun s x => s.printf ("\t- " ++ x ++ "\n")) s) s

end Operations

/-! ## Receivers whose registry may be the nil map -/

/-- A value of the Go type `Conf` as any importer can declare it: the registry
is the nil map (`none`) or an allocated map. -/
structure ConfValue (H : Type) where
  hooksList : Option (GoMap H)
  oneshot : Bool

/-- The zero value `Conf{}`: the nil map and `false`. -/
def ConfValue.zero {H : Type} : ConfValue H :=
  { hooksList := none, oneshot := false }

/-- A configuration with an allocated registry, as a Go value. -/
def Conf.toValue {H : Type} (conf : Conf H) : ConfValue H :=
  { hooksList := some conf.hooksList, oneshot := conf.oneshot }

/-- Go `m[k] = v` on a map value: `none` is the panic "assignment to entry in
nil map", otherwise the map after the write. -/
def GoMap.assign {V : Type} (m : Option (GoMap V)) (k : String) (v : V) :
    Option (GoMap V) :=
  match m with
  | none => none
  | some a => some (a.set k v)

/-- `Conf.AddUserHooks` on any receiver: `none` when the call panics, otherwise
the value the caller holds after the call. -/
def ConfValue.AddUserHooks {H : Type} (k : HookCtors H) (environ : Environ)
    (conf : ConfValue H) (name : String) (env : String) : Option (ConfValue H) :=
  let hook : H := k.NewUserHooks environ
    (name ++ " init") (env ++ "_INIT_HOOK")
    (name ++ " exit") (env ++ "_EXIT_HOOK")
  match GoMap.assign conf.hooksList name hook with
  | none => none
  | some m => some { conf with hooksList := some m }

/-- `Conf.AddHooks` on any receiver: `none` when the call panics, otherwise the
value the caller holds after the call. -/
def ConfValue.AddHooks {H : Type} (k : HookCtors H) (environ : Environ)
    (conf : ConfValue H) : Option (ConfValue H) :=
  let iproute : H := k.NewIPRouteHooks environ
    "iproute init" "ROUTES_INIT"
    "iproute exit" "ROUTES_EXIT"
  match GoMap.assign conf.hooksList "iproute" iproute with
  | none => none
  | some m =>
    let nat4 : H := k.NewNat4Hooks environ
    match GoMap.assign (some m) "nat4" nat4 with
    | none => none
    | some m => some { conf with hooksList := some m }

/-! ## A concrete family of hooks

The statements below are about every hook type and every behaviour of the
hooks. The following instance is used to evaluate the definitions on concrete
inputs. -/

/-- Modelled from the spec: the three hook variants of section 4.1 (IPRoute,
NAT, User), whose Go types are declared outside `conf.go`; a hook is recorded by
the arguments its constructor received. -/
inductive HookDesc where
  | user (initLabel initEnv exitLabel exitEnv : String)
  | iproute (initLabel initEnv exitLabel exitEnv : String)
  | nat4
deriving DecidableEq, Repr

/-- The constructors of `HookDesc`, as a `HookCtors` family. -/
def descCtors : HookCtors HookDesc where
  NewUserHooks := fun _ a b c d => HookDesc.user a b c d
  NewIPRouteHooks := fun _ a b c d => HookDesc.iproute a b c d
  NewNat4Hooks := fun _ => HookDesc.nat4

/-- A behaviour for `HookDesc` hooks over a world that counts the external
actions run so far: the IPRoute hook fails at init, the NAT hook fails at exit,
User hooks succeed. -/
def descOps : HookOps HookDesc Nat where
  RunInit := fun h w =>
    match h with
    | HookDesc.iproute _ _ _ _ => (some "exit status 1", w + 1)
    | _ => (none, w + 1)
  RunExit := fun h w =>
    match h with
    | HookDesc.nat4 => (some "exit status 2", w + 1)
    | _ => (none, w + 1)
  String := fun h =>
    match h with
    | HookDesc.user a b c d => [a ++ ": " ++ b, c ++ ": " ++ d]
    | HookDesc.iproute a b c d => [a ++ ": " ++ b, c ++ ": " ++ d]
    | HookDesc.nat4 => ["nat4"]

/-- The environment in which no variable is set. -/
def emptyEnviron : Environ :=
  fun _ => none

/-- The state before anything ran. -/
def Exec.start {W H : Type} (w : W) : Exec W H :=
  { world := w, calls := [], log := [] }

/-- An environment in which only `ONESHOT` is set, to `v`. -/
def oneshotEnviron (v : String) : Environ :=
  fun key => if key = "ONESHOT" then some v else none

/-- The exported methods of `Conf`, with their arguments. -/
inductive Op where
  | Oneshot
  | RunInitHooks
  | RunExitHooks
  | RunInitHook (name : String)
  | RunExitHook (name : String)
  | Log
  | AddUserHooks (name env : String)
  | AddHooks
deriving DecidableEq, Repr

/-- Whether the method is one of the two that register hooks. -/
def Op.registers : Op → Bool
  | Op.AddUserHooks _ _ => true
  | Op.AddHooks => true
  | _ => false

/-- A caller that holds a `Conf` invokes one exported method on it: the `Conf`
the caller holds afterwards and the state of the run. The methods that do not
assign to the receiver leave the caller's `Conf` as it was; the value `Oneshot`
returns is dropped. -/
def Op.call {H W : Type} (k : HookCtors H) (ops : HookOps H W) (environ : Environ)
    (op : Op) (conf : Conf H) (s : Exec W H) : Conf H × Exec W H :=
  match op with
  | Op.Oneshot => (conf, s)
  | Op.RunInitHooks => (conf, conf.RunInitHooks ops s)
  | Op.RunExitHooks => (conf, conf.RunExitHooks ops s)
  | Op.RunInitHook name => (conf, conf.RunInitHook ops name s)
  | Op.RunExitHook name => (conf, conf.RunExitHook ops name s)
  | Op.Log => (conf, conf.Log ops s)
  | Op.AddUserHooks name env => (conf.AddUserHooks k environ name env, s)
  | Op.AddHooks => (conf.AddHooks k environ, s)

/-- A configuration whose registry holds only "nat4", out of the four names of
the sequences, and a hook under another key. -/
def partialConf : Conf HookDesc :=
  { hooksList := [("nat4", HookDesc.nat4),
      ("other", HookDesc.user "other init" "OTHER_INIT_HOOK" "other exit" "OTHER_EXIT_HOOK")],
    oneshot := false }

/-- The configuration `NewConf` builds when no variable is set. -/
def defaultConf : Conf HookDesc :=
  NewConf descCtors emptyEnviron

/-- The state of a run of `descOps` hooks before anything ran. -/
def startExec : Exec Nat HookDesc :=
  Exec.start 0

/-- The behaviour `descOps` with an exit side that always succeeds and leaves
the world alone; its init side is that of `descOps`. -/
def descOpsQuietExit : HookOps HookDesc Nat :=
  { descOps with RunExit := fun _ w => (none, w) }

/-! ## Vocabulary of the statements -/

/-- The state before anything ran, for hooks that note their own runs. -/
def startRecording : Exec (Nat × List (HookDesc × Stage)) HookDesc :=
  Exec.start (0, [])


/-- The hook methods a sequence over `names` is expected to invoke: for each
name in order, the hook registered under it, if there is one. -/
def invoked {H : Type} (conf : Conf H) (stage : Stage) (names : List String) :
    List (String × H × Stage) :=
  names.filterMap (fun n => (conf.hooksList.get n).map (fun h => (n, h, stage)))

/-- The record the sequences write for an invocation that returned an error. -/
def Call.errorRecord {H : Type} (c : Call H) : Option String :=
  c.err.map (fun e =>
    match c.stage with
    | Stage.init => initErrorRecord c.name e
    | Stage.exit => exitErrorRecord c.name e)

/-- The records written for the failed invocations among `cs`, in order. -/
def failureRecords {H : Type} (cs : List (Call H)) : List String :=
  cs.filterMap Call.errorRecord

/-- The invocations made between two states of a run. -/
def newCalls {W H : Type} (before after : Exec W H) : List (Call H) :=
  after.calls.drop before.calls.length

/-- The records written between two states of a run. -/
def newLog {W H : Type} (before after : Exec W H) : List String :=
  after.log.drop before.log.length

/-- The hooks registered under `names`, each with its key, in the order of
`names`; a name under which no hook is registered contributes nothing. -/
def registered {H : Type} (conf : Conf H) (names : List String) : List (String × H) :=
  names.filterMap (fun n => (conf.hooksList.get n).map (fun h => (n, h)))

/-- One hook method (`run` is the `RunInit` or the `RunExit` of a behaviour)
applied once to each hook of a list, in order, each from the world the one
before left: what each returned, and the world the last one left. -/
def applyAll {H W : Type} (run : H → W → Option String × W) :
    List (String × H) → W → List (String × H × Option String) × W
  | [], w => ([], w)
  | (n, h) :: rest, w =>
    ((n, h, (run h w).1) :: (applyAll run rest (run h w).2).1,
      (applyAll run rest (run h w).2).2)

/-- The invocations that returned `outs`, as entries of `Exec.calls`. -/
def toCalls {H : Type} (stage : Stage) (outs : List (String × H × Option String)) :
    List (Call H) :=
  outs.map (fun o => ⟨o.1, o.2.1, stage, o.2.2⟩)

/-- The records for the errors among `outs`: one for each hook that returned an
error, in order, none for a hook that returned nil. -/
def errorRecords {H : Type} (stage : Stage) (outs : List (String × H × Option String)) :
    List String :=
  outs.filterMap (fun o => o.2.2.map (fun e =>
    match stage with
    | Stage.init => initErrorRecord o.1 e
    | Stage.exit => exitErrorRecord o.1 e))

/-- The state of a run after a sequence of the given stage whose hook methods
returned `r.1` and left the world `r.2`: the invocations are appended to the
record, and one record is logged for each error. -/
def Exec.after {W H : Type} (s : Exec W H) (stage : Stage)
    (r : List (String × H × Option String) × W) : Exec W H :=
  { world := r.2,
    calls := s.calls ++ toCalls stage r.1,
    log := s.log ++ errorRecords stage r.1 }

/-- The behaviour `ops` where every hook also notes in the world, when one of
its methods runs, that it ran: the note is made by the hook, not by the code
that calls it. -/
def HookOps.recording {H W : Type} (ops : HookOps H W) :
    HookOps H (W × List (H × Stage)) where
  RunInit := fun h w =>
    ((ops.RunInit h w.1).1, ((ops.RunInit h w.1).2, w.2 ++ [(h, Stage.init)]))
  RunExit := fun h w =>
    ((ops.RunExit h w.1).1, ((ops.RunExit h w.1).2, w.2 ++ [(h, Stage.exit)]))
  String := ops.String

/-- The behaviour `ops` where every method acts on the world as before and
returns no error. -/
def HookOps.succeeding {H W : Type} (ops : HookOps H W) : HookOps H W where
  RunInit := fun h w => (none, (ops.RunInit h w).2)
  RunExit := fun h w => (none, (ops.RunExit h w).2)
  String := ops.String

/-- The records `Log` writes for the hooks: one per string of each description,
hooks in iteration order. -/
def descriptionRecords {H W : Type} (ops : HookOps H W) (conf : Conf H) : List String :=
  conf.hooksList.flatMap (fun e => (ops.String e.2).map (fun x => "\t- " ++ x ++ "\n"))

/-- The record `Log` writes for the mode. -/
def modeRecord (oneshot : Bool) : String :=
  if oneshot then "\t- mode oneshot is enabled" else "\t- mode oneshot is disabled"

/-! ## Lemmas on Go maps -/

namespace GoMap

variable {V : Type}

theorem get_nil (k : String) : (GoMap.make : GoMap V).get k = none := rfl

theorem get_filter_ne (m : GoMap V) (k k' : String) (h : k' ≠ k) :
    GoMap.get (m.filter (fun e => e.1 != k)) k' = GoMap.get m k' := by
  induction m with
  | nil => rfl
  | cons e m ih =>
    obtain ⟨a, v⟩ := e
    unfold GoMap.get at ih ⊢
    by_cases ha : a = k
    · subst ha
      have h1 : (k' == a) = false := by simpa using h
      simp [List.filter_cons, List.lookup_cons, h1, ih]
    · have h2 : (a != k) = true := by simpa using ha
      simp only [List.filter_cons, h2, if_true, List.lookup_cons, ih]

theorem get_filter_self (m : GoMap V) (k : String) :
    GoMap.get (m.filter (fun e => e.1 != k)) k = none := by
  induction m with
  | nil => rfl
  | cons e m ih =>
    obtain ⟨a, v⟩ := e
    unfold GoMap.get at ih ⊢
    by_cases ha : a = k
    · subst ha
      simp [List.filter_cons, ih]
    · have h2 : (a != k) = true := by simpa using ha
      have h3 : (k == a) = false := by simpa using fun h => ha h.symm
      simp only [List.filter_cons, h2, if_true, List.lookup_cons, h3, ih]

/-- Reading after a write: the written key holds the new value, every other key
is as before. -/
theorem get_set (m : GoMap V) (k : String) (v : V) (k' : String) :
    (m.set k v).get k' = if k' = k then some v else m.get k' := by
  by_cases h : k' = k
  · subst h
    simp [GoMap.set, GoMap.get, List.lookup_cons]
  · have h1 : (k' == k) = false := by simpa using h
    have := get_filter_ne m k k' h
    unfold GoMap.get at this
    simp [GoMap.set, GoMap.get, List.lookup_cons, h1, h, this]

theorem keys_set (m : GoMap V) (k : String) (v : V) :
    (m.set k v).keys = k :: m.keys.filter (fun a => a != k) := by
  simp [GoMap.set, GoMap.keys, List.filter_map, Function.comp_def]

theorem keys_make : (GoMap.make : GoMap V).keys = [] := rfl

theorem WF_make : (GoMap.make : GoMap V).WF := by
  simp [GoMap.WF, GoMap.keys, GoMap.make]

/-- A write keeps the keys distinct. -/
theorem WF_set (m : GoMap V) (k : String) (v : V) (h : m.WF) : (m.set k v).WF := by
  unfold GoMap.WF at h ⊢
  rw [keys_set]
  refine List.nodup_cons.mpr ⟨?_, h.filter _⟩
  simp [List.mem_filter]

/-- A key is stored exactly when a read finds a hook. -/
theorem mem_keys_iff (m : GoMap V) (k : String) :
    k ∈ m.keys ↔ (m.get k).isSome = true := by
  induction m with
  | nil => simp [GoMap.keys, GoMap.get]
  | cons e m ih =>
    obtain ⟨a, v⟩ := e
    unfold GoMap.keys GoMap.get at ih ⊢
    by_cases ha : k = a
    · subst ha
      simp [List.lookup_cons]
    · have h3 : (k == a) = false := by simpa using ha
      simp only [List.map_cons, List.mem_cons, ha, false_or, List.lookup_cons, h3, ih]

end GoMap

/-! ## Oneshot -/

/-- C4: for every environment, `Oneshot()` of the configuration built by
`NewConf` is true exactly when `ONESHOT` is set to the string "true"; in
particular it is false when the variable is unset and for the values "TRUE",
"1", "false", "" and " true". -/
theorem NewConf_Oneshot_iff {H : Type} (k : HookCtors H) (environ : Environ) :
    ((NewConf k environ).Oneshot = true ↔ environ "ONESHOT" = some "true")
    ∧ (environ "ONESHOT" = none → (NewConf k environ).Oneshot = false)
    ∧ (∀ v ∈ ["TRUE", "1", "false", "", " true"],
        (NewConf k (oneshotEnviron v)).Oneshot = false) := by
  have key : ∀ e : Environ, ((NewConf k e).Oneshot = true ↔ e "ONESHOT" = some "true") := by
    intro e
    unfold NewConf Conf.Oneshot LookupEnv
    cases h : e "ONESHOT" with
    | none => simp
    | some v =>
      by_cases hv : v = "true"
      · simp [hv]
      · simp [hv]
  refine ⟨key environ, ?_, ?_⟩
  · intro h
    have := key environ
    cases hb : (NewConf k environ).Oneshot with
    | false => rfl
    | true => rw [hb, h] at this; simp at this
  · intro v hv
    have := key (oneshotEnviron v)
    cases hb : (NewConf k (oneshotEnviron v)).Oneshot with
    | false => rfl
    | true =>
      rw [hb] at this
      have h2 := this.mp rfl
      simp only [oneshotEnviron, if_true, Option.some.injEq] at h2
      subst h2
      revert hv
      decide

/-- C4 on three environments: `ONESHOT` set to "true", no variable set, and
`ONESHOT` set to "TRUE". -/
theorem NewConf_Oneshot_iff_witness :
    (NewConf descCtors (oneshotEnviron "true")).Oneshot = true
    ∧ (NewConf descCtors emptyEnviron).Oneshot = false
    ∧ (NewConf descCtors (oneshotEnviron "TRUE")).Oneshot = false :=
  ⟨(NewConf_Oneshot_iff descCtors (oneshotEnviron "true")).1.mpr (by decide),
    (NewConf_Oneshot_iff descCtors emptyEnviron).2.1 rfl,
    (NewConf_Oneshot_iff descCtors emptyEnviron).2.2 "TRUE" (by decide)⟩

/-! ## Construction of the registry -/

section Registry

variable {H : Type}

theorem AddUserHooks_get (k : HookCtors H) (environ : Environ) (conf : Conf H)
    (name env key : String) :
    (conf.AddUserHooks k environ name env).hooksList.get key =
      if key = name then
        some (k.NewUserHooks environ (name ++ " init") (env ++ "_INIT_HOOK")
          (name ++ " exit") (env ++ "_EXIT_HOOK"))
      else conf.hooksList.get key := by
  simp only [Conf.AddUserHooks, GoMap.get_set]

theorem AddHooks_get (k : HookCtors H) (environ : Environ) (conf : Conf H) (key : String) :
    (conf.AddHooks k environ).hooksList.get key =
      if key = "nat4" then some (k.NewNat4Hooks environ)
      else if key = "iproute" then
        some (k.NewIPRouteHooks environ "iproute init" "ROUTES_INIT"
          "iproute exit" "ROUTES_EXIT")
      else conf.hooksList.get key := by
  simp only [Conf.AddHooks, GoMap.get_set]

theorem AddUserHooks_oneshot (k : HookCtors H) (environ : Environ) (conf : Conf H)
    (name env : String) : (conf.AddUserHooks k environ name env).oneshot = conf.oneshot := rfl

theorem AddHooks_oneshot (k : HookCtors H) (environ : Environ) (conf : Conf H) :
    (conf.AddHooks k environ).oneshot = conf.oneshot := rfl

/-- The registry `NewConf` builds: the four writes, in the order of the code. -/
theorem NewConf_hooksList (k : HookCtors H) (environ : Environ) :
    (NewConf k environ).hooksList =
      ((((GoMap.make : GoMap H).set "iproute"
          (k.NewIPRouteHooks environ "iproute init" "ROUTES_INIT"
            "iproute exit" "ROUTES_EXIT")).set "nat4"
          (k.NewNat4Hooks environ)).set "pre"
          (k.NewUserHooks environ ("pre" ++ " init") ("PRE" ++ "_INIT_HOOK")
            ("pre" ++ " exit") ("PRE" ++ "_EXIT_HOOK"))).set "post"
          (k.NewUserHooks environ ("post" ++ " init") ("POST" ++ "_INIT_HOOK")
            ("post" ++ " exit") ("POST" ++ "_EXIT_HOOK")) := by
  unfold NewConf
  simp only [Conf.AddHooks, Conf.AddUserHooks]
  split <;> rfl

theorem NewConf_get (k : HookCtors H) (environ : Environ) (key : String) :
    (NewConf k environ).hooksList.get key =
      if key = "post" then
        some (k.NewUserHooks environ "post init" "POST_INIT_HOOK"
          "post exit" "POST_EXIT_HOOK")
      else if key = "pre" then
        some (k.NewUserHooks environ "pre init" "PRE_INIT_HOOK"
          "pre exit" "PRE_EXIT_HOOK")
      else if key = "nat4" then some (k.NewNat4Hooks environ)
      else if key = "iproute" then
        some (k.NewIPRouteHooks environ "iproute init" "ROUTES_INIT"
          "iproute exit" "ROUTES_EXIT")
      else none := by
  rw [NewConf_hooksList]
  simp only [GoMap.get_set, GoMap.get_nil]
  rfl

theorem NewConf_keys (k : HookCtors H) (environ : Environ) :
    (NewConf k environ).hooksList.keys = ["post", "pre", "nat4", "iproute"] := by
  rw [NewConf_hooksList]
  simp only [GoMap.keys_set, GoMap.keys_make]
  decide

end Registry

/-! ## Running one hook -/

section Runs

variable {H W : Type}

/-- The invocation `RunInitHook` makes for `name`, if a hook is registered. -/
theorem RunInitHook_calls (ops : HookOps H W) (conf : Conf H) (name : String)
    (s : Exec W H) :
    (conf.RunInitHook ops name s).calls = s.calls ++
      (match conf.hooksList.get name with
        | none => []
        | some h => [⟨name, h, Stage.init, (ops.RunInit h s.world).1⟩]) := by
  unfold Conf.RunInitHook
  cases hg : conf.hooksList.get name with
  | none => simp
  | some h =>
    cases he : (ops.RunInit h s.world).1 with
    | none => simp [he]
    | some e => simp [he, Exec.printf]

theorem RunExitHook_calls (ops : HookOps H W) (conf : Conf H) (name : String)
    (s : Exec W H) :
    (conf.RunExitHook ops name s).calls = s.calls ++
      (match conf.hooksList.get name with
        | none => []
        | some h => [⟨name, h, Stage.exit, (ops.RunExit h s.world).1⟩]) := by
  unfold Conf.RunExitHook
  cases hg : conf.hooksList.get name with
  | none => simp
  | some h =>
    cases he : (ops.RunExit h s.world).1 with
    | none => simp [he]
    | some e => simp [he, Exec.printf]

/-- One step of either sequence, summarised: the invocations it adds are the
expected ones, and the records it adds are those of the failed invocations. -/
theorem RunInitHook_step (ops : HookOps H W) (conf : Conf H) (name : String)
    (s : Exec W H) :
    ∃ cs : List (Call H),
      (conf.RunInitHook ops name s).calls = s.calls ++ cs
      ∧ (conf.RunInitHook ops name s).log = s.log ++ failureRecords cs
      ∧ cs.map Call.target = invoked conf Stage.init [name] := by
  unfold Conf.RunInitHook
  cases hg : conf.hooksList.get name with
  | none => exact ⟨[], by simp [failureRecords, invoked, hg]⟩
  | some h =>
    cases he : (ops.RunInit h s.world).1 with
    | none =>
      exact ⟨[⟨name, h, Stage.init, none⟩], by
        simp [he, failureRecords, Call.errorRecord, invoked, hg, Call.target]⟩
    | some e =>
      exact ⟨[⟨name, h, Stage.init, some e⟩], by
        simp [he, failureRecords, Call.errorRecord, invoked, hg, Call.target, Exec.printf]⟩

theorem RunExitHook_step (ops : HookOps H W) (conf : Conf H) (name : String)
    (s : Exec W H) :
    ∃ cs : List (Call H),
      (conf.RunExitHook ops name s).calls = s.calls ++ cs
      ∧ (conf.RunExitHook ops name s).log = s.log ++ failureRecords cs
      ∧ cs.map Call.target = invoked conf Stage.exit [name] := by
  unfold Conf.RunExitHook
  cases hg : conf.hooksList.get name with
  | none => exact ⟨[], by simp [failureRecords, invoked, hg]⟩
  | some h =>
    cases he : (ops.RunExit h s.world).1 with
    | none =>
      exact ⟨[⟨name, h, Stage.exit, none⟩], by
        simp [he, failureRecords, Call.errorRecord, invoked, hg, Call.target]⟩
    | some e =>
      exact ⟨[⟨name, h, Stage.exit, some e⟩], by
        simp [he, failureRecords, Call.errorRecord, invoked, hg, Call.target, Exec.printf]⟩

theorem invoked_append (conf : Conf H) (stage : Stage) (xs ys : List String) :
    invoked conf stage (xs ++ ys) = invoked conf stage xs ++ invoked conf stage ys := by
  simp [invoked, List.filterMap_append]

theorem failureRecords_append (xs ys : List (Call H)) :
    failureRecords (xs ++ ys) = failureRecords xs ++ failureRecords ys := by
  simp [failureRecords, List.filterMap_append]

/-- Two steps in a row compose. -/
theorem step_comp (conf : Conf H) (stage : Stage) (s₀ s₁ s₂ : Exec W H)
    (xs ys : List String)
    (h₁ : ∃ cs : List (Call H), s₁.calls = s₀.calls ++ cs
      ∧ s₁.log = s₀.log ++ failureRecords cs
      ∧ cs.map Call.target = invoked conf stage xs)
    (h₂ : ∃ cs : List (Call H), s₂.calls = s₁.calls ++ cs
      ∧ s₂.log = s₁.log ++ failureRecords cs
      ∧ cs.map Call.target = invoked conf stage ys) :
    ∃ cs : List (Call H), s₂.calls = s₀.calls ++ cs
      ∧ s₂.log = s₀.log ++ failureRecords cs
      ∧ cs.map Call.target = invoked conf stage (xs ++ ys) := by
  obtain ⟨c₁, a₁, b₁, t₁⟩ := h₁
  obtain ⟨c₂, a₂, b₂, t₂⟩ := h₂
  refine ⟨c₁ ++ c₂, ?_, ?_, ?_⟩
  · rw [a₂, a₁, List.append_assoc]
  · rw [b₂, b₁, failureRecords_append, List.append_assoc]
  · rw [List.map_append, t₁, t₂, invoked_append]

/-- The init sequence, summarised. -/
theorem RunInitHooks_steps (ops : HookOps H W) (conf : Conf H) (s : Exec W H) :
    ∃ cs : List (Call H),
      (conf.RunInitHooks ops s).calls = s.calls ++ cs
      ∧ (conf.RunInitHooks ops s).log = s.log ++ failureRecords cs
      ∧ cs.map Call.target = invoked conf Stage.init ["pre", "iproute", "nat4", "post"] := by
  unfold Conf.RunInitHooks
  have h₁ := RunInitHook_step ops conf "pre" s
  have h₂ := RunInitHook_step ops conf "iproute" (conf.RunInitHook ops "pre" s)
  have h₃ := RunInitHook_step ops conf "nat4"
    (conf.RunInitHook ops "iproute" (conf.RunInitHook ops "pre" s))
  have h₄ := RunInitHook_step ops conf "post"
    (conf.RunInitHook ops "nat4" (conf.RunInitHook ops "iproute" (conf.RunInitHook ops "pre" s)))
  exact step_comp conf _ _ _ _ ["pre", "iproute", "nat4"] ["post"]
    (step_comp conf _ _ _ _ ["pre", "iproute"] ["nat4"]
      (step_comp conf _ _ _ _ ["pre"] ["iproute"] h₁ h₂) h₃) h₄

/-- The exit sequence, summarised. -/
theorem RunExitHooks_steps (ops : HookOps H W) (conf : Conf H) (s : Exec W H) :
    ∃ cs : List (Call H),
      (conf.RunExitHooks ops s).calls = s.calls ++ cs
      ∧ (conf.RunExitHooks ops s).log = s.log ++ failureRecords cs
      ∧ cs.map Call.target = invoked conf Stage.exit ["pre", "nat4", "iproute", "post"] := by
  unfold Conf.RunExitHooks
  have h₁ := RunExitHook_step ops conf "pre" s
  have h₂ := RunExitHook_step ops conf "nat4" (conf.RunExitHook ops "pre" s)
  have h₃ := RunExitHook_step ops conf "iproute"
    (conf.RunExitHook ops "nat4" (conf.RunExitHook ops "pre" s))
  have h₄ := RunExitHook_step ops conf "post"
    (conf.RunExitHook ops "iproute" (conf.RunExitHook ops "nat4" (conf.RunExitHook ops "pre" s)))
  exact step_comp conf _ _ _ _ ["pre", "nat4", "iproute"] ["post"]
    (step_comp conf _ _ _ _ ["pre", "nat4"] ["iproute"]
      (step_comp conf _ _ _ _ ["pre"] ["nat4"] h₁ h₂) h₃) h₄

theorem newCalls_eq (s s' : Exec W H) (cs : List (Call H)) (h : s'.calls = s.calls ++ cs) :
    newCalls s s' = cs := by
  simp [newCalls, h]

theorem newLog_eq (s s' : Exec W H) (ls : List String) (h : s'.log = s.log ++ ls) :
    newLog s s' = ls := by
  simp [newLog, h]

/-- Among the expected invocations over distinct names, a key occurs once if it
is one of the names and a hook is registered under it, and not at all
otherwise. -/
theorem invoked_count (conf : Conf H) (stage : Stage) (names : List String)
    (hn : names.Nodup) (key : String) :
    ((invoked conf stage names).filter (fun t => t.1 == key)).length =
      if key ∈ names ∧ (conf.hooksList.get key).isSome = true then 1 else 0 := by
  induction names with
  | nil => simp [invoked]
  | cons n ns ih =>
    have hnn := List.nodup_cons.mp hn
    have ih' := ih hnn.2
    have hcons : invoked conf stage (n :: ns) =
        invoked conf stage [n] ++ invoked conf stage ns := invoked_append conf stage [n] ns
    rw [hcons, List.filter_append, List.length_append, ih']
    by_cases hk : key = n
    · subst hk
      have hmem : key ∉ ns := hnn.1
      cases hg : conf.hooksList.get key with
      | none => simp [invoked, hg]
      | some h => simp [invoked, hg, hmem]
    · have hk' : ¬ n = key := fun h => hk h.symm
      cases hg : conf.hooksList.get n with
      | none => simp [invoked, hg, hk]
      | some h => simp [invoked, hg, hk, hk']

/-- Counting invocations by key is counting their targets by key. -/
theorem count_by_name (cs : List (Call H)) (key : String) :
    (cs.filter (fun c => c.name == key)).length =
      ((cs.map Call.target).filter (fun t => t.1 == key)).length := by
  induction cs with
  | nil => rfl
  | cons c cs ih =>
    by_cases hk : c.name = key
    · simp [List.filter_cons, Call.target, hk, ih]
    · simp [List.filter_cons, Call.target, hk, ih]

/-- Every expected invocation has the stage of its sequence. -/
theorem invoked_stage (conf : Conf H) (stage : Stage) (names : List String)
    (t : String × H × Stage) (ht : t ∈ invoked conf stage names) : t.2.2 = stage := by
  simp only [invoked, List.mem_filterMap, Option.map_eq_some'] at ht
  obtain ⟨n, _, h, _, rfl⟩ := ht
  rfl

/-- A registered name of the sequence is among the expected invocations. -/
theorem mem_invoked (conf : Conf H) (stage : Stage) (names : List String)
    (n : String) (h : H) (hn : n ∈ names) (hg : conf.hooksList.get n = some h) :
    (n, h, stage) ∈ invoked conf stage names := by
  simp only [invoked, List.mem_filterMap, Option.map_eq_some']
  exact ⟨n, hn, h, hg, rfl⟩

/-- One record is written per failed invocation. -/
theorem failureRecords_length (cs : List (Call H)) :
    (failureRecords cs).length = (cs.filter (fun c => c.err.isSome)).length := by
  induction cs with
  | nil => rfl
  | cons c cs ih =>
    unfold failureRecords at ih ⊢
    cases he : c.err with
    | none => simp [List.filterMap_cons, List.filter_cons, Call.errorRecord, he, ih]
    | some e => simp [List.filterMap_cons, List.filter_cons, Call.errorRecord, he, ih]

/-- An invocation whose target is expected is found among the invocations. -/
theorem exists_call_of_target (cs : List (Call H)) (t : String × H × Stage)
    (ht : t ∈ cs.map Call.target) : ∃ c ∈ cs, c.name = t.1 ∧ c.stage = t.2.2 := by
  obtain ⟨c, hc, rfl⟩ := List.mem_map.mp ht
  exact ⟨c, hc, rfl, rfl⟩

/-- The stage of every invocation whose target is expected. -/
theorem stage_of_targets (conf : Conf H) (stage : Stage) (names : List String)
    (cs : List (Call H)) (ht : cs.map Call.target = invoked conf stage names)
    (c : Call H) (hc : c ∈ cs) : c.stage = stage := by
  have hm : c.target ∈ invoked conf stage names := ht ▸ List.mem_map_of_mem _ hc
  exact invoked_stage conf stage names c.target hm

/-- The init methods do not consult the exit behaviour of the hooks. -/
theorem RunInitHook_congr (ops ops₂ : HookOps H W) (conf : Conf H) (name : String)
    (s : Exec W H) (h : ops₂.RunInit = ops.RunInit) :
    conf.RunInitHook ops₂ name s = conf.RunInitHook ops name s := by
  unfold Conf.RunInitHook
  rw [h]

/-- The exit methods do not consult the init behaviour of the hooks. -/
theorem RunExitHook_congr (ops ops₂ : HookOps H W) (conf : Conf H) (name : String)
    (s : Exec W H) (h : ops₂.RunExit = ops.RunExit) :
    conf.RunExitHook ops₂ name s = conf.RunExitHook ops name s := by
  unfold Conf.RunExitHook
  rw [h]

theorem RunInitHooks_congr (ops ops₂ : HookOps H W) (conf : Conf H)
    (s : Exec W H) (h : ops₂.RunInit = ops.RunInit) :
    conf.RunInitHooks ops₂ s = conf.RunInitHooks ops s := by
  unfold Conf.RunInitHooks
  simp only [RunInitHook_congr ops ops₂ conf _ _ h]

theorem RunExitHooks_congr (ops ops₂ : HookOps H W) (conf : Conf H)
    (s : Exec W H) (h : ops₂.RunExit = ops.RunExit) :
    conf.RunExitHooks ops₂ s = conf.RunExitHooks ops s := by
  unfold Conf.RunExitHooks
  simp only [RunExitHook_congr ops ops₂ conf _ _ h]

/-- A registered name of a sequence is invoked by it. -/
theorem later_invoked (conf : Conf H) (stage : Stage) (names : List String)
    (cs : List (Call H)) (ht : cs.map Call.target = invoked conf stage names)
    (j : Nat) (nj : String) (hj : names[j]? = some nj)
    (hr : (conf.hooksList.get nj).isSome = true) :
    ∃ c ∈ cs, c.name = nj ∧ c.stage = stage := by
  obtain ⟨h, hg⟩ := Option.isSome_iff_exists.mp hr
  have hmem : nj ∈ names := List.getElem?_mem hj
  have := mem_invoked conf stage names nj h hmem hg
  rw [← ht] at this
  exact exists_call_of_target cs _ this

/-! ### The sequences in terms of the hook methods -/

theorem registered_append (conf : Conf H) (xs ys : List String) :
    registered conf (xs ++ ys) = registered conf xs ++ registered conf ys := by
  simp [registered, List.filterMap_append]

theorem applyAll_append (run : H → W → Option String × W) (xs ys : List (String × H))
    (w : W) :
    applyAll run (xs ++ ys) w =
      ((applyAll run xs w).1 ++ (applyAll run ys (applyAll run xs w).2).1,
        (applyAll run ys (applyAll run xs w).2).2) := by
  induction xs generalizing w with
  | nil => simp [applyAll]
  | cons x xs ih =>
    obtain ⟨n, h⟩ := x
    simp [applyAll, ih]

theorem after_after (s : Exec W H) (stage : Stage) (run : H → W → Option String × W)
    (xs ys : List (String × H)) :
    ((s.after stage (applyAll run xs s.world)).after stage
        (applyAll run ys (s.after stage (applyAll run xs s.world)).world)) =
      s.after stage (applyAll run (xs ++ ys) s.world) := by
  rw [applyAll_append]
  simp [Exec.after, toCalls, errorRecords, List.filterMap_append]

/-- One init step is the hook's `RunInit`, applied if the hook is registered. -/
theorem RunInitHook_eq (ops : HookOps H W) (conf : Conf H) (name : String)
    (s : Exec W H) :
    conf.RunInitHook ops name s =
      s.after Stage.init (applyAll ops.RunInit (registered conf [name]) s.world) := by
  unfold Conf.RunInitHook
  cases hg : conf.hooksList.get name with
  | none => simp [registered, hg, applyAll, Exec.after, toCalls, errorRecords]
  | some h =>
    cases he : (ops.RunInit h s.world).1 with
    | none => simp [registered, hg, applyAll, Exec.after, toCalls, errorRecords, he]
    | some e =>
      simp [registered, hg, applyAll, Exec.after, toCalls, errorRecords, he, Exec.printf]

/-- One exit step is the hook's `RunExit`, applied if the hook is registered. -/
theorem RunExitHook_eq (ops : HookOps H W) (conf : Conf H) (name : String)
    (s : Exec W H) :
    conf.RunExitHook ops name s =
      s.after Stage.exit (applyAll ops.RunExit (registered conf [name]) s.world) := by
  unfold Conf.RunExitHook
  cases hg : conf.hooksList.get name with
  | none => simp [registered, hg, applyAll, Exec.after, toCalls, errorRecords]
  | some h =>
    cases he : (ops.RunExit h s.world).1 with
    | none => simp [registered, hg, applyAll, Exec.after, toCalls, errorRecords, he]
    | some e =>
      simp [registered, hg, applyAll, Exec.after, toCalls, errorRecords, he, Exec.printf]

/-- The init sequence is `RunInit` applied to the registered hooks, in order. -/
theorem RunInitHooks_eq (ops : HookOps H W) (conf : Conf H) (s : Exec W H) :
    conf.RunInitHooks ops s =
      s.after Stage.init
        (applyAll ops.RunInit (registered conf ["pre", "iproute", "nat4", "post"]) s.world) := by
  unfold Conf.RunInitHooks
  simp only [RunInitHook_eq, after_after, ← registered_append]
  rfl

/-- The exit sequence is `RunExit` applied to the registered hooks, in order. -/
theorem RunExitHooks_eq (ops : HookOps H W) (conf : Conf H) (s : Exec W H) :
    conf.RunExitHooks ops s =
      s.after Stage.exit
        (applyAll ops.RunExit (registered conf ["pre", "nat4", "iproute", "post"]) s.world) := by
  unfold Conf.RunExitHooks
  simp only [RunExitHook_eq, after_after, ← registered_append]
  rfl

/-- What the hooks note when each notes its own run: one note per hook, in the
order of the list. -/
theorem applyAll_recording_init (ops : HookOps H W) (l : List (String × H))
    (w : W × List (H × Stage)) :
    (applyAll ops.recording.RunInit l w).2.2 =
      w.2 ++ l.map (fun e => (e.2, Stage.init)) := by
  induction l generalizing w with
  | nil => simp [applyAll]
  | cons x xs ih =>
    obtain ⟨n, h⟩ := x
    simp only [applyAll, List.map_cons]
    rw [ih]
    simp [HookOps.recording]

theorem applyAll_recording_exit (ops : HookOps H W) (l : List (String × H))
    (w : W × List (H × Stage)) :
    (applyAll ops.recording.RunExit l w).2.2 =
      w.2 ++ l.map (fun e => (e.2, Stage.exit)) := by
  induction l generalizing w with
  | nil => simp [applyAll]
  | cons x xs ih =>
    obtain ⟨n, h⟩ := x
    simp only [applyAll, List.map_cons]
    rw [ih]
    simp [HookOps.recording]

/-- The world the hooks leave does not depend on the errors they return. -/
theorem applyAll_succeeding_world (run run' : H → W → Option String × W)
    (hw : ∀ h w, (run' h w).2 = (run h w).2) (l : List (String × H)) (w : W) :
    (applyAll run' l w).2 = (applyAll run l w).2 := by
  induction l generalizing w with
  | nil => simp [applyAll]
  | cons x xs ih =>
    obtain ⟨n, h⟩ := x
    simp [applyAll, ih, hw]

theorem errorRecords_length (stage : Stage) (outs : List (String × H × Option String)) :
    (errorRecords stage outs).length = (outs.filter (fun o => o.2.2.isSome)).length := by
  induction outs with
  | nil => rfl
  | cons o os ih =>
    unfold errorRecords at ih ⊢
    cases he : o.2.2 with
    | none => simp [List.filterMap_cons, List.filter_cons, he, ih]
    | some e => simp [List.filterMap_cons, List.filter_cons, he, ih]

theorem newCalls_after (s : Exec W H) (stage : Stage)
    (r : List (String × H × Option String) × W) :
    newCalls s (s.after stage r) = toCalls stage r.1 := by
  simp [newCalls, Exec.after]

theorem newLog_after (s : Exec W H) (stage : Stage)
    (r : List (String × H × Option String) × W) :
    newLog s (s.after stage r) = errorRecords stage r.1 := by
  simp [newLog, Exec.after]

end Runs

/-! ## The init and exit sequences -/

section Sequences

variable {H W : Type}

/-- What the record of invocations shows of the init sequence. -/
theorem init_trace (ops : HookOps H W) (conf : Conf H) (s : Exec W H) :
    (conf.RunInitHooks ops s).calls = s.calls ++ newCalls s (conf.RunInitHooks ops s)
    ∧ (newCalls s (conf.RunInitHooks ops s)).map Call.target =
        invoked conf Stage.init ["pre", "iproute", "nat4", "post"]
    ∧ ∀ key : String,
        ((newCalls s (conf.RunInitHooks ops s)).filter (fun c => c.name == key)).length =
          if key ∈ ["pre", "iproute", "nat4", "post"]
            ∧ (conf.hooksList.get key).isSome = true then 1 else 0 := by
  obtain ⟨cs, hc, _, ht⟩ := RunInitHooks_steps ops conf s
  have hn := newCalls_eq s _ cs hc
  rw [hn]
  refine ⟨hc, ht, fun key => ?_⟩
  rw [count_by_name, ht]
  exact invoked_count conf Stage.init _ (by decide) key

/-- What the record of invocations shows of the exit sequence. -/
theorem exit_trace (ops : HookOps H W) (conf : Conf H) (s : Exec W H) :
    (conf.RunExitHooks ops s).calls = s.calls ++ newCalls s (conf.RunExitHooks ops s)
    ∧ (newCalls s (conf.RunExitHooks ops s)).map Call.target =
        invoked conf Stage.exit ["pre", "nat4", "iproute", "post"]
    ∧ ∀ key : String,
        ((newCalls s (conf.RunExitHooks ops s)).filter (fun c => c.name == key)).length =
          if key ∈ ["pre", "nat4", "iproute", "post"]
            ∧ (conf.hooksList.get key).isSome = true then 1 else 0 := by
  obtain ⟨cs, hc, _, ht⟩ := RunExitHooks_steps ops conf s
  have hn := newCalls_eq s _ cs hc
  rw [hn]
  refine ⟨hc, ht, fun key => ?_⟩
  rw [count_by_name, ht]
  exact invoked_count conf Stage.exit _ (by decide) key

/-- C1: one call of `RunInitHooks` invokes `RunInit` on exactly the hooks
registered under "pre", "iproute", "nat4", "post", each once and in that order,
whatever each returns. The state it returns is the one reached by applying
`ops.RunInit` to those hooks in turn: the world is the world they leave, the
invocations recorded carry what `ops.RunInit` returned, and when every hook
notes its own run the notes are those of the registered hooks, in order and
nothing else. A key that is absent and a key outside the four are not
invoked. -/
theorem RunInitHooks_invokes (ops : HookOps H W) (conf : Conf H) (s : Exec W H)
    (t : Exec (W × List (H × Stage)) H) :
    conf.RunInitHooks ops s =
        s.after Stage.init
          (applyAll ops.RunInit (registered conf ["pre", "iproute", "nat4", "post"]) s.world)
    ∧ (conf.RunInitHooks ops s).world =
        (applyAll ops.RunInit (registered conf ["pre", "iproute", "nat4", "post"]) s.world).2
    ∧ newCalls s (conf.RunInitHooks ops s) =
        toCalls Stage.init
          (applyAll ops.RunInit (registered conf ["pre", "iproute", "nat4", "post"]) s.world).1
    ∧ (conf.RunInitHooks ops.recording t).world.2 =
        t.world.2 ++
          (registered conf ["pre", "iproute", "nat4", "post"]).map (fun e => (e.2, Stage.init))
    ∧ (conf.RunInitHooks ops s).calls = s.calls ++ newCalls s (conf.RunInitHooks ops s)
    ∧ (newCalls s (conf.RunInitHooks ops s)).map Call.target =
        invoked conf Stage.init ["pre", "iproute", "nat4", "post"]
    ∧ ∀ key : String,
        ((newCalls s (conf.RunInitHooks ops s)).filter (fun c => c.name == key)).length =
          if key ∈ ["pre", "iproute", "nat4", "post"]
            ∧ (conf.hooksList.get key).isSome = true then 1 else 0 := by
  have heq := RunInitHooks_eq ops conf s
  refine ⟨heq, ?_, ?_, ?_, init_trace ops conf s⟩
  · rw [heq]; rfl
  · rw [heq, newCalls_after]
  · rw [RunInitHooks_eq ops.recording conf t]
    exact applyAll_recording_init ops _ t.world

/-- C1 on a registry that holds "nat4" and a key outside the sequence, with hooks
that count the actions run: one action ran, the hook under "nat4" noted its
`RunInit`, and only it is recorded as invoked. -/
theorem RunInitHooks_invokes_witness :
    (partialConf.RunInitHooks descOps startExec).world = 1
    ∧ (partialConf.RunInitHooks descOps.recording startRecording).world.2 =
        [(HookDesc.nat4, Stage.init)]
    ∧ (newCalls startExec (partialConf.RunInitHooks descOps startExec)).map Call.target =
        [("nat4", HookDesc.nat4, Stage.init)] :=
  ⟨(RunInitHooks_invokes descOps partialConf startExec startRecording).2.1.trans (by decide),
    (RunInitHooks_invokes descOps partialConf startExec startRecording).2.2.2.1.trans
      (by decide),
    (RunInitHooks_invokes descOps partialConf startExec
      startRecording).2.2.2.2.2.1.trans (by decide)⟩

/-- C2: one call of `RunExitHooks` invokes `RunExit` on exactly the hooks
registered under "pre", "nat4", "iproute", "post", each once and in that order,
whatever each returns. The state it returns is the one reached by applying
`ops.RunExit` to those hooks in turn: the world is the world they leave, the
invocations recorded carry what `ops.RunExit` returned, and when every hook
notes its own run the notes are those of the registered hooks, in order and
nothing else. A key that is absent is skipped. -/
theorem RunExitHooks_invokes (ops : HookOps H W) (conf : Conf H) (s : Exec W H)
    (t : Exec (W × List (H × Stage)) H) :
    conf.RunExitHooks ops s =
        s.after Stage.exit
          (applyAll ops.RunExit (registered conf ["pre", "nat4", "iproute", "post"]) s.world)
    ∧ (conf.RunExitHooks ops s).world =
        (applyAll ops.RunExit (registered conf ["pre", "nat4", "iproute", "post"]) s.world).2
    ∧ newCalls s (conf.RunExitHooks ops s) =
        toCalls Stage.exit
          (applyAll ops.RunExit (registered conf ["pre", "nat4", "iproute", "post"]) s.world).1
    ∧ (conf.RunExitHooks ops.recording t).world.2 =
        t.world.2 ++
          (registered conf ["pre", "nat4", "iproute", "post"]).map (fun e => (e.2, Stage.exit))
    ∧ (conf.RunExitHooks ops s).calls = s.calls ++ newCalls s (conf.RunExitHooks ops s)
    ∧ (newCalls s (conf.RunExitHooks ops s)).map Call.target =
        invoked conf Stage.exit ["pre", "nat4", "iproute", "post"]
    ∧ ∀ key : String,
        ((newCalls s (conf.RunExitHooks ops s)).filter (fun c => c.name == key)).length =
          if key ∈ ["pre", "nat4", "iproute", "post"]
            ∧ (conf.hooksList.get key).isSome = true then 1 else 0 := by
  have heq := RunExitHooks_eq ops conf s
  refine ⟨heq, ?_, ?_, ?_, exit_trace ops conf s⟩
  · rw [heq]; rfl
  · rw [heq, newCalls_after]
  · rw [RunExitHooks_eq ops.recording conf t]
    exact applyAll_recording_exit ops _ t.world

/-- C2 on the registry `NewConf` builds, with hooks that count the actions run:
four actions ran, and the four hooks noted their `RunExit` in the exit order. -/
theorem RunExitHooks_invokes_witness :
    (defaultConf.RunExitHooks descOps startExec).world = 4
    ∧ (defaultConf.RunExitHooks descOps.recording startRecording).world.2 =
        [(HookDesc.user "pre init" "PRE_INIT_HOOK" "pre exit" "PRE_EXIT_HOOK", Stage.exit),
         (HookDesc.nat4, Stage.exit),
         (HookDesc.iproute "iproute init" "ROUTES_INIT" "iproute exit" "ROUTES_EXIT",
            Stage.exit),
         (HookDesc.user "post init" "POST_INIT_HOOK" "post exit" "POST_EXIT_HOOK",
            Stage.exit)]
    ∧ (newCalls startExec (defaultConf.RunExitHooks descOps startExec)).map Call.target =
      [("pre", HookDesc.user "pre init" "PRE_INIT_HOOK" "pre exit" "PRE_EXIT_HOOK", Stage.exit),
       ("nat4", HookDesc.nat4, Stage.exit),
       ("iproute", HookDesc.iproute "iproute init" "ROUTES_INIT" "iproute exit" "ROUTES_EXIT",
          Stage.exit),
       ("post", HookDesc.user "post init" "POST_INIT_HOOK" "post exit" "POST_EXIT_HOOK",
          Stage.exit)] :=
  ⟨(RunExitHooks_invokes descOps defaultConf startExec startRecording).2.1.trans (by decide),
    (RunExitHooks_invokes descOps defaultConf startExec startRecording).2.2.2.1.trans
      (by decide),
    (RunExitHooks_invokes descOps defaultConf startExec
      startRecording).2.2.2.2.2.1.trans (by decide)⟩

/-- What the record of invocations shows of failure isolation. -/
theorem isolation_trace (ops ops' : HookOps H W) (conf : Conf H) (s s' : Exec W H) :
    (newCalls s (conf.RunInitHooks ops s)).map Call.target =
        (newCalls s' (conf.RunInitHooks ops' s')).map Call.target
    ∧ (newCalls s (conf.RunExitHooks ops s)).map Call.target =
        (newCalls s' (conf.RunExitHooks ops' s')).map Call.target
    ∧ (∀ (i j : Nat) (ni nj : String), i < j →
        ["pre", "iproute", "nat4", "post"][i]? = some ni →
        ["pre", "iproute", "nat4", "post"][j]? = some nj →
        (∃ c ∈ newCalls s (conf.RunInitHooks ops s), c.name = ni ∧ c.err.isSome = true) →
        (conf.hooksList.get nj).isSome = true →
        ∃ c ∈ newCalls s (conf.RunInitHooks ops s), c.name = nj ∧ c.stage = Stage.init)
    ∧ (∀ (i j : Nat) (ni nj : String), i < j →
        ["pre", "nat4", "iproute", "post"][i]? = some ni →
        ["pre", "nat4", "iproute", "post"][j]? = some nj →
        (∃ c ∈ newCalls s (conf.RunExitHooks ops s), c.name = ni ∧ c.err.isSome = true) →
        (conf.hooksList.get nj).isSome = true →
        ∃ c ∈ newCalls s (conf.RunExitHooks ops s), c.name = nj ∧ c.stage = Stage.exit) := by
  obtain ⟨ci, hci, _, hti⟩ := RunInitHooks_steps ops conf s
  obtain ⟨ci', hci', _, hti'⟩ := RunInitHooks_steps ops' conf s'
  obtain ⟨ce, hce, _, hte⟩ := RunExitHooks_steps ops conf s
  obtain ⟨ce', hce', _, hte'⟩ := RunExitHooks_steps ops' conf s'
  rw [newCalls_eq s _ ci hci, newCalls_eq s' _ ci' hci', newCalls_eq s _ ce hce,
    newCalls_eq s' _ ce' hce']
  refine ⟨by rw [hti, hti'], by rw [hte, hte'], ?_, ?_⟩
  · intro i j ni nj _ _ hj _ hr
    exact later_invoked conf Stage.init _ ci hti j nj hj hr
  · intro i j ni nj _ _ hj _ hr
    exact later_invoked conf Stage.exit _ ce hte j nj hj hr

/-- The hooks after a given position of a list are all recorded as invoked. -/
theorem toCalls_targets (stage : Stage) (run : H → W → Option String × W)
    (l : List (String × H)) (w : W) :
    (toCalls stage (applyAll run l w).1).map Call.target =
      l.map (fun x => (x.1, x.2, stage)) := by
  induction l generalizing w with
  | nil => simp [applyAll, toCalls]
  | cons x xs ih =>
    obtain ⟨n, h⟩ := x
    have := ih (run h w).2
    simp only [toCalls, List.map_map] at this
    simp [applyAll, toCalls, Call.target, this]

/-- A sequence split at one hook: the hooks before it, the hook, the hooks
after it, each applied from the world the one before left. -/
theorem after_split (s : Exec W H) (stage : Stage) (run : H → W → Option String × W)
    (l₁ l₂ : List (String × H)) (n : String) (h : H) :
    (s.after stage (applyAll run (l₁ ++ (n, h) :: l₂) s.world)).world =
        (applyAll run l₂ (run h (applyAll run l₁ s.world).2).2).2
    ∧ newCalls s (s.after stage (applyAll run (l₁ ++ (n, h) :: l₂) s.world)) =
        toCalls stage (applyAll run l₁ s.world).1 ++
          ⟨n, h, stage, (run h (applyAll run l₁ s.world).2).1⟩ ::
            toCalls stage (applyAll run l₂ (run h (applyAll run l₁ s.world).2).2).1
    ∧ newLog s (s.after stage (applyAll run (l₁ ++ (n, h) :: l₂) s.world)) =
        errorRecords stage (applyAll run l₁ s.world).1 ++
          (errorRecords stage [(n, h, (run h (applyAll run l₁ s.world).2).1)] ++
            errorRecords stage (applyAll run l₂ (run h (applyAll run l₁ s.world).2).2).1) := by
  rw [newCalls_after, newLog_after, applyAll_append]
  simp [Exec.after, applyAll, toCalls, errorRecords, List.filterMap_append,
    List.filterMap_cons]
  cases (run h (applyAll run l₁ s.world).2).1 <;> simp

/-- C3: failure isolation. The world a sequence leaves is the world it leaves
when every hook acts as it does but returns no error, and the hooks that note
their own run note the same runs in both cases: the errors change neither which
hook methods run nor their order. If the hook at some position of the init
(resp. exit) sequence returns an error from `ops.RunInit` (resp. `ops.RunExit`),
the sequence goes on: the error is logged, every registered hook at a later
position is applied, each from the world the one before left, and is recorded
as invoked, and the sequence returns the state so reached. -/
theorem failure_isolation (ops ops' : HookOps H W) (conf : Conf H) (s s' : Exec W H)
    (t : Exec (W × List (H × Stage)) H) :
    ((conf.RunInitHooks ops s).world = (conf.RunInitHooks ops.succeeding s).world
      ∧ (conf.RunExitHooks ops s).world = (conf.RunExitHooks ops.succeeding s).world
      ∧ (conf.RunInitHooks ops.recording t).world.2 =
          (conf.RunInitHooks ops.succeeding.recording t).world.2
      ∧ (conf.RunExitHooks ops.recording t).world.2 =
          (conf.RunExitHooks ops.succeeding.recording t).world.2)
    ∧ (∀ (l₁ l₂ : List (String × H)) (n : String) (h : H) (e : String),
        registered conf ["pre", "iproute", "nat4", "post"] = l₁ ++ (n, h) :: l₂ →
        (ops.RunInit h (applyAll ops.RunInit l₁ s.world).2).1 = some e →
        (conf.RunInitHooks ops s).world =
            (applyAll ops.RunInit l₂
              (ops.RunInit h (applyAll ops.RunInit l₁ s.world).2).2).2
        ∧ newCalls s (conf.RunInitHooks ops s) =
            toCalls Stage.init (applyAll ops.RunInit l₁ s.world).1 ++
              ⟨n, h, Stage.init, some e⟩ ::
                toCalls Stage.init (applyAll ops.RunInit l₂
                  (ops.RunInit h (applyAll ops.RunInit l₁ s.world).2).2).1
        ∧ (toCalls Stage.init (applyAll ops.RunInit l₂
              (ops.RunInit h (applyAll ops.RunInit l₁ s.world).2).2).1).map Call.target =
            l₂.map (fun x => (x.1, x.2, Stage.init))
        ∧ newLog s (conf.RunInitHooks ops s) =
            errorRecords Stage.init (applyAll ops.RunInit l₁ s.world).1 ++
              ("Error while running " ++ n ++ " init hook: " ++ e) ::
                errorRecords Stage.init (applyAll ops.RunInit l₂
                  (ops.RunInit h (applyAll ops.RunInit l₁ s.world).2).2).1)
    ∧ (∀ (l₁ l₂ : List (String × H)) (n : String) (h : H) (e : String),
        registered conf ["pre", "nat4", "iproute", "post"] = l₁ ++ (n, h) :: l₂ →
        (ops.RunExit h (applyAll ops.RunExit l₁ s.world).2).1 = some e →
        (conf.RunExitHooks ops s).world =
            (applyAll ops.RunExit l₂
              (ops.RunExit h (applyAll ops.RunExit l₁ s.world).2).2).2
        ∧ newCalls s (conf.RunExitHooks ops s) =
            toCalls Stage.exit (applyAll ops.RunExit l₁ s.world).1 ++
              ⟨n, h, Stage.exit, some e⟩ ::
                toCalls Stage.exit (applyAll ops.RunExit l₂
                  (ops.RunExit h (applyAll ops.RunExit l₁ s.world).2).2).1
        ∧ (toCalls Stage.exit (applyAll ops.RunExit l₂
              (ops.RunExit h (applyAll ops.RunExit l₁ s.world).2).2).1).map Call.target =
            l₂.map (fun x => (x.1, x.2, Stage.exit))
        ∧ newLog s (conf.RunExitHooks ops s) =
            errorRecords Stage.exit (applyAll ops.RunExit l₁ s.world).1 ++
              ("Error while running " ++ n ++ " exit hook: " ++ e) ::
                errorRecords Stage.exit (applyAll ops.RunExit l₂
                  (ops.RunExit h (applyAll ops.RunExit l₁ s.world).2).2).1)
    ∧ ((newCalls s (conf.RunInitHooks ops s)).map Call.target =
        (newCalls s' (conf.RunInitHooks ops' s')).map Call.target
    ∧ (newCalls s (conf.RunExitHooks ops s)).map Call.target =
        (newCalls s' (conf.RunExitHooks ops' s')).map Call.target
    ∧ (∀ (i j : Nat) (ni nj : String), i < j →
        ["pre", "iproute", "nat4", "post"][i]? = some ni →
        ["pre", "iproute", "nat4", "post"][j]? = some nj →
        (∃ c ∈ newCalls s (conf.RunInitHooks ops s), c.name = ni ∧ c.err.isSome = true) →
        (conf.hooksList.get nj).isSome = true →
        ∃ c ∈ newCalls s (conf.RunInitHooks ops s), c.name = nj ∧ c.stage = Stage.init)
    ∧ (∀ (i j : Nat) (ni nj : String), i < j →
        ["pre", "nat4", "iproute", "post"][i]? = some ni →
        ["pre", "nat4", "iproute", "post"][j]? = some nj →
        (∃ c ∈ newCalls s (conf.RunExitHooks ops s), c.name = ni ∧ c.err.isSome = true) →
        (conf.hooksList.get nj).isSome = true →
        ∃ c ∈ newCalls s (conf.RunExitHooks ops s), c.name = nj ∧ c.stage = Stage.exit)) := by
  refine ⟨⟨?_, ?_, ?_, ?_⟩, ?_, ?_, isolation_trace ops ops' conf s s'⟩
  · rw [RunInitHooks_eq, RunInitHooks_eq]
    exact (applyAll_succeeding_world ops.RunInit ops.succeeding.RunInit
      (fun _ _ => rfl) _ s.world).symm
  · rw [RunExitHooks_eq, RunExitHooks_eq]
    exact (applyAll_succeeding_world ops.RunExit ops.succeeding.RunExit
      (fun _ _ => rfl) _ s.world).symm
  · rw [RunInitHooks_eq, RunInitHooks_eq]
    exact (applyAll_recording_init ops _ t.world).trans
      (applyAll_recording_init ops.succeeding _ t.world).symm
  · rw [RunExitHooks_eq, RunExitHooks_eq]
    exact (applyAll_recording_exit ops _ t.world).trans
      (applyAll_recording_exit ops.succeeding _ t.world).symm
  · intro l₁ l₂ n h e hl he
    have hs := after_split s Stage.init ops.RunInit l₁ l₂ n h
    rw [RunInitHooks_eq, hl]
    refine ⟨hs.1, ?_, toCalls_targets _ _ _ _, ?_⟩
    · rw [hs.2.1, he]
    · rw [hs.2.2, he]
      simp [errorRecords, initErrorRecord]
  · intro l₁ l₂ n h e hl he
    have hs := after_split s Stage.exit ops.RunExit l₁ l₂ n h
    rw [RunExitHooks_eq, hl]
    refine ⟨hs.1, ?_, toCalls_targets _ _ _ _, ?_⟩
    · rw [hs.2.1, he]
    · rw [hs.2.2, he]
      simp [errorRecords, exitErrorRecord]

/-- C3 where the "iproute" hook returns an error at init and the "nat4" hook at
exit, with hooks that count the actions run: in both sequences the hooks at the
later positions still run, which makes four actions in each. -/
theorem failure_isolation_witness :
    ((descOps.RunInit (HookDesc.iproute "iproute init" "ROUTES_INIT" "iproute exit" "ROUTES_EXIT")
        1).1 = some "exit status 1"
      ∧ (defaultConf.RunInitHooks descOps startExec).world = 4)
    ∧ ((descOps.RunExit HookDesc.nat4 1).1 = some "exit status 2"
      ∧ (defaultConf.RunExitHooks descOps startExec).world = 4) :=
  ⟨⟨by decide,
    ((failure_isolation descOps descOps defaultConf startExec startExec startRecording).2.1
      [("pre", HookDesc.user "pre init" "PRE_INIT_HOOK" "pre exit" "PRE_EXIT_HOOK")]
      [("nat4", HookDesc.nat4),
        ("post", HookDesc.user "post init" "POST_INIT_HOOK" "post exit" "POST_EXIT_HOOK")]
      "iproute" (HookDesc.iproute "iproute init" "ROUTES_INIT" "iproute exit" "ROUTES_EXIT")
      "exit status 1" (by decide) (by decide)).1.trans (by decide)⟩,
   ⟨by decide,
    ((failure_isolation descOps descOps defaultConf startExec startExec startRecording).2.2.1
      [("pre", HookDesc.user "pre init" "PRE_INIT_HOOK" "pre exit" "PRE_EXIT_HOOK")]
      [("iproute", HookDesc.iproute "iproute init" "ROUTES_INIT" "iproute exit" "ROUTES_EXIT"),
        ("post", HookDesc.user "post init" "POST_INIT_HOOK" "post exit" "POST_EXIT_HOOK")]
      "nat4" HookDesc.nat4
      "exit status 2" (by decide) (by decide)).1.trans (by decide)⟩⟩

/-- What the record of invocations shows of failure logging. -/
theorem logging_trace (ops : HookOps H W) (conf : Conf H) (s : Exec W H) :
    ((conf.RunInitHooks ops s).log = s.log ++ newLog s (conf.RunInitHooks ops s)
      ∧ newLog s (conf.RunInitHooks ops s) =
          failureRecords (newCalls s (conf.RunInitHooks ops s))
      ∧ (newLog s (conf.RunInitHooks ops s)).length =
          ((newCalls s (conf.RunInitHooks ops s)).filter (fun c => c.err.isSome)).length)
    ∧ ((conf.RunExitHooks ops s).log = s.log ++ newLog s (conf.RunExitHooks ops s)
      ∧ newLog s (conf.RunExitHooks ops s) =
          failureRecords (newCalls s (conf.RunExitHooks ops s))
      ∧ (newLog s (conf.RunExitHooks ops s)).length =
          ((newCalls s (conf.RunExitHooks ops s)).filter (fun c => c.err.isSome)).length)
    ∧ (∀ c : Call H, c.err = none → c.errorRecord = none)
    ∧ (∀ (c : Call H) (e : String), c.err = some e →
        c.errorRecord = some ("Error while running " ++ c.name ++
          (if c.stage = Stage.init then " init hook: " else " exit hook: ") ++ e))
    ∧ (∀ name : String, conf.hooksList.get name = none →
        (conf.RunInitHook ops name s).log = s.log
        ∧ (conf.RunExitHook ops name s).log = s.log) := by
  obtain ⟨ci, hci, hli, _⟩ := RunInitHooks_steps ops conf s
  obtain ⟨ce, hce, hle, _⟩ := RunExitHooks_steps ops conf s
  rw [newCalls_eq s _ ci hci, newCalls_eq s _ ce hce, newLog_eq s _ _ hli,
    newLog_eq s _ _ hle]
  refine ⟨⟨hli, rfl, failureRecords_length ci⟩, ⟨hle, rfl, failureRecords_length ce⟩,
    ?_, ?_, ?_⟩
  · intro c hc
    simp [Call.errorRecord, hc]
  · intro c e hc
    cases hs : c.stage with
    | init => simp [Call.errorRecord, hc, hs, initErrorRecord]
    | exit => simp [Call.errorRecord, hc, hs, exitErrorRecord]
  · intro name hg
    simp [Conf.RunInitHook, Conf.RunExitHook, hg]

/-- C7: failure logging. The records a sequence writes are those of the errors
that `ops.RunInit` (resp. `ops.RunExit`) returned on the registered hooks of the
sequence, applied in turn: one record for each hook that returned an error, in
the order of the sequence, none for a hook that returned nil, so that their
number is the number of hooks that failed. The record of a failure is
"Error while running", the registry key, the stage and the text of the error. A
key that is absent writes nothing. -/
theorem failure_logging (ops : HookOps H W) (conf : Conf H) (s : Exec W H) :
    (newLog s (conf.RunInitHooks ops s) =
        errorRecords Stage.init
          (applyAll ops.RunInit (registered conf ["pre", "iproute", "nat4", "post"]) s.world).1
      ∧ (newLog s (conf.RunInitHooks ops s)).length =
        ((applyAll ops.RunInit (registered conf ["pre", "iproute", "nat4", "post"])
          s.world).1.filter (fun o => o.2.2.isSome)).length)
    ∧ (newLog s (conf.RunExitHooks ops s) =
        errorRecords Stage.exit
          (applyAll ops.RunExit (registered conf ["pre", "nat4", "iproute", "post"]) s.world).1
      ∧ (newLog s (conf.RunExitHooks ops s)).length =
        ((applyAll ops.RunExit (registered conf ["pre", "nat4", "iproute", "post"])
          s.world).1.filter (fun o => o.2.2.isSome)).length)
    ∧ (∀ (name : String) (h : H), conf.hooksList.get name = some h →
        (∀ e : String, (ops.RunInit h s.world).1 = some e →
          (conf.RunInitHook ops name s).log =
            s.log ++ ["Error while running " ++ name ++ " init hook: " ++ e])
        ∧ ((ops.RunInit h s.world).1 = none → (conf.RunInitHook ops name s).log = s.log)
        ∧ (∀ e : String, (ops.RunExit h s.world).1 = some e →
          (conf.RunExitHook ops name s).log =
            s.log ++ ["Error while running " ++ name ++ " exit hook: " ++ e])
        ∧ ((ops.RunExit h s.world).1 = none → (conf.RunExitHook ops name s).log = s.log))
    ∧ (((conf.RunInitHooks ops s).log = s.log ++ newLog s (conf.RunInitHooks ops s)
      ∧ newLog s (conf.RunInitHooks ops s) =
          failureRecords (newCalls s (conf.RunInitHooks ops s))
      ∧ (newLog s (conf.RunInitHooks ops s)).length =
          ((newCalls s (conf.RunInitHooks ops s)).filter (fun c => c.err.isSome)).length)
    ∧ ((conf.RunExitHooks ops s).log = s.log ++ newLog s (conf.RunExitHooks ops s)
      ∧ newLog s (conf.RunExitHooks ops s) =
          failureRecords (newCalls s (conf.RunExitHooks ops s))
      ∧ (newLog s (conf.RunExitHooks ops s)).length =
          ((newCalls s (conf.RunExitHooks ops s)).filter (fun c => c.err.isSome)).length)
    ∧ (∀ c : Call H, c.err = none → c.errorRecord = none)
    ∧ (∀ (c : Call H) (e : String), c.err = some e →
        c.errorRecord = some ("Error while running " ++ c.name ++
          (if c.stage = Stage.init then " init hook: " else " exit hook: ") ++ e))
    ∧ (∀ name : String, conf.hooksList.get name = none →
        (conf.RunInitHook ops name s).log = s.log
        ∧ (conf.RunExitHook ops name s).log = s.log)) := by
  refine ⟨⟨?_, ?_⟩, ⟨?_, ?_⟩, ?_, logging_trace ops conf s⟩
  · rw [RunInitHooks_eq, newLog_after]
  · rw [RunInitHooks_eq, newLog_after, errorRecords_length]
  · rw [RunExitHooks_eq, newLog_after]
  · rw [RunExitHooks_eq, newLog_after, errorRecords_length]
  · intro name h hg
    refine ⟨?_, ?_, ?_, ?_⟩
    · intro e he
      simp [Conf.RunInitHook, hg, he, Exec.printf, initErrorRecord]
    · intro he
      simp [Conf.RunInitHook, hg, he]
    · intro e he
      simp [Conf.RunExitHook, hg, he, Exec.printf, exitErrorRecord]
    · intro he
      simp [Conf.RunExitHook, hg, he]

/-- C7 where the "iproute" hook returns an error at init and the "nat4" hook at
exit: each sequence writes one record, for the hook that failed. -/
theorem failure_logging_witness :
    newLog startExec (defaultConf.RunInitHooks descOps startExec) =
        ["Error while running iproute init hook: exit status 1"]
    ∧ newLog startExec (defaultConf.RunExitHooks descOps startExec) =
        ["Error while running nat4 exit hook: exit status 2"] :=
  ⟨(failure_logging descOps defaultConf startExec).1.1.trans (by decide),
    (failure_logging descOps defaultConf startExec).2.1.1.trans (by decide)⟩

/-- C10: init and exit never cross. Every invocation `RunInitHooks` and
`RunInitHook` make is a `RunInit`, and their result does not depend on how the
hooks behave at exit; every invocation `RunExitHooks` and `RunExitHook` make is
a `RunExit`, and their result does not depend on how the hooks behave at init;
the hooks one sequence invokes are the same whatever the other sequence did
before. -/
theorem stages_never_cross (ops ops' : HookOps H W) (conf : Conf H) (s s' : Exec W H) :
    (∀ c ∈ newCalls s (conf.RunInitHooks ops s), c.stage = Stage.init)
    ∧ (∀ name : String, ∀ c ∈ newCalls s (conf.RunInitHook ops name s), c.stage = Stage.init)
    ∧ (∀ c ∈ newCalls s (conf.RunExitHooks ops s), c.stage = Stage.exit)
    ∧ (∀ name : String, ∀ c ∈ newCalls s (conf.RunExitHook ops name s), c.stage = Stage.exit)
    ∧ (∀ ops₂ : HookOps H W, ops₂.RunInit = ops.RunInit →
        conf.RunInitHooks ops₂ s = conf.RunInitHooks ops s
        ∧ ∀ name : String, conf.RunInitHook ops₂ name s = conf.RunInitHook ops name s)
    ∧ (∀ ops₂ : HookOps H W, ops₂.RunExit = ops.RunExit →
        conf.RunExitHooks ops₂ s = conf.RunExitHooks ops s
        ∧ ∀ name : String, conf.RunExitHook ops₂ name s = conf.RunExitHook ops name s)
    ∧ (newCalls (conf.RunInitHooks ops s)
          (conf.RunExitHooks ops (conf.RunInitHooks ops s))).map Call.target =
        (newCalls s' (conf.RunExitHooks ops' s')).map Call.target
    ∧ (newCalls (conf.RunExitHooks ops s)
          (conf.RunInitHooks ops (conf.RunExitHooks ops s))).map Call.target =
        (newCalls s' (conf.RunInitHooks ops' s')).map Call.target := by
  obtain ⟨ci, hci, _, hti⟩ := RunInitHooks_steps ops conf s
  obtain ⟨ce, hce, _, hte⟩ := RunExitHooks_steps ops conf s
  obtain ⟨ci', hci', _, hti'⟩ := RunInitHooks_steps ops' conf s'
  obtain ⟨ce', hce', _, hte'⟩ := RunExitHooks_steps ops' conf s'
  obtain ⟨cie, hcie, _, htie⟩ := RunExitHooks_steps ops conf (conf.RunInitHooks ops s)
  obtain ⟨cei, hcei, _, htei⟩ := RunInitHooks_steps ops conf (conf.RunExitHooks ops s)
  refine ⟨?_, ?_, ?_, ?_, ?_, ?_, ?_, ?_⟩
  · rw [newCalls_eq s _ ci hci]
    exact stage_of_targets conf Stage.init _ ci hti
  · intro name
    obtain ⟨c1, hc1, _, ht1⟩ := RunInitHook_step ops conf name s
    rw [newCalls_eq s _ c1 hc1]
    exact stage_of_targets conf Stage.init _ c1 ht1
  · rw [newCalls_eq s _ ce hce]
    exact stage_of_targets conf Stage.exit _ ce hte
  · intro name
    obtain ⟨c1, hc1, _, ht1⟩ := RunExitHook_step ops conf name s
    rw [newCalls_eq s _ c1 hc1]
    exact stage_of_targets conf Stage.exit _ c1 ht1
  · intro ops₂ h
    exact ⟨RunInitHooks_congr ops ops₂ conf s h,
      fun name => RunInitHook_congr ops ops₂ conf name s h⟩
  · intro ops₂ h
    exact ⟨RunExitHooks_congr ops ops₂ conf s h,
      fun name => RunExitHook_congr ops ops₂ conf name s h⟩
  · rw [newCalls_eq _ _ cie hcie, newCalls_eq s' _ ce' hce', htie, hte']
  · rw [newCalls_eq _ _ cei hcei, newCalls_eq s' _ ci' hci', htei, hti']

/-- C10 where the exit side of the hooks is replaced by one that always
succeeds: the init sequence runs as before. -/
theorem stages_never_cross_witness :
    defaultConf.RunInitHooks descOpsQuietExit startExec =
      defaultConf.RunInitHooks descOps startExec :=
  ((stages_never_cross descOps descOps defaultConf startExec startExec).2.2.2.2.1
    descOpsQuietExit rfl).1

end Sequences

/-! ## The registry after construction -/

section Wiring

variable {H W : Type}

/-- C5: for every environment, the registry `NewConf` builds has exactly the
keys "pre", "post", "iproute" and "nat4", each once; "pre" and "post" hold
hooks made by `NewUserHooks`, "iproute" one made by `NewIPRouteHooks` and "nat4"
the one made by `NewNat4Hooks`; the keys are the same for every environment. -/
theorem NewConf_registry (k : HookCtors H) (environ environ' : Environ) :
    (∀ key : String, ((NewConf k environ).hooksList.get key).isSome = true ↔
        key ∈ ["pre", "post", "iproute", "nat4"])
    ∧ (∀ key : String, key ∈ (NewConf k environ).hooksList.keys ↔
        key ∈ ["pre", "post", "iproute", "nat4"])
    ∧ (NewConf k environ).hooksList.WF
    ∧ (NewConf k environ).hooksList.keys.Perm ["pre", "post", "iproute", "nat4"]
    ∧ (∃ a b c d : String,
        (NewConf k environ).hooksList.get "pre" = some (k.NewUserHooks environ a b c d))
    ∧ (∃ a b c d : String,
        (NewConf k environ).hooksList.get "post" = some (k.NewUserHooks environ a b c d))
    ∧ (∃ a b c d : String,
        (NewConf k environ).hooksList.get "iproute" =
          some (k.NewIPRouteHooks environ a b c d))
    ∧ (NewConf k environ).hooksList.get "nat4" = some (k.NewNat4Hooks environ)
    ∧ (NewConf k environ).hooksList.keys = (NewConf k environ').hooksList.keys := by
  have hkeys : ∀ key : String, key ∈ (NewConf k environ).hooksList.keys ↔
      key ∈ ["pre", "post", "iproute", "nat4"] := by
    intro key
    rw [NewConf_keys]
    simp only [List.mem_cons, List.mem_singleton, List.mem_nil_iff, or_false]
    tauto
  refine ⟨?_, hkeys, ?_, ?_, ?_, ?_, ?_, ?_, ?_⟩
  · intro key
    rw [← GoMap.mem_keys_iff]
    exact hkeys key
  · unfold GoMap.WF
    rw [NewConf_keys]
    decide
  · rw [NewConf_keys]
    decide
  · exact ⟨_, _, _, _, by rw [NewConf_get]; rfl⟩
  · exact ⟨_, _, _, _, by rw [NewConf_get]; rfl⟩
  · exact ⟨_, _, _, _, by rw [NewConf_get]; rfl⟩
  · rw [NewConf_get]; rfl
  · rw [NewConf_keys, NewConf_keys]

/-- C5 on the symbolic hooks: the hook under "nat4" is the NAT hook. -/
theorem NewConf_registry_witness :
    defaultConf.hooksList.get "nat4" = some HookDesc.nat4 :=
  (NewConf_registry descCtors emptyEnviron emptyEnviron).2.2.2.2.2.2.2.1

/-- C6, as the claim states it, fails: on the zero value `Conf{}`, whose registry
is the nil map, `AddUserHooks("pre", "PRE")` panics and registers nothing, and so
does `AddHooks`. -/
theorem AddUserHooks_panics_on_zero_value :
    (ConfValue.zero : ConfValue HookDesc).hooksList = none
    ∧ (ConfValue.zero : ConfValue HookDesc).AddUserHooks descCtors emptyEnviron "pre" "PRE" =
        none
    ∧ (ConfValue.zero : ConfValue HookDesc).AddHooks descCtors emptyEnviron = none :=
  ⟨rfl, rfl, rfl⟩

/-- C6, amended: wiring of the environment keys on a receiver whose registry is
allocated. There `AddUserHooks(name, env)` returns and the registry then holds,
under `name`, the hook `NewUserHooks` makes from the labels "<name> init" and
"<name> exit" and the variables "<env>_INIT_HOOK" and "<env>_EXIT_HOOK"; and
`AddHooks` returns and the registry then holds, under "iproute", the hook
`NewIPRouteHooks` makes from ROUTES_INIT and ROUTES_EXIT. The configuration
`NewConf` builds has an allocated registry; in it "pre" is wired to
PRE_INIT_HOOK and PRE_EXIT_HOOK, "post" to POST_INIT_HOOK and POST_EXIT_HOOK,
"iproute" to ROUTES_INIT and ROUTES_EXIT. On a receiver whose registry is the
nil map both methods panic. -/
theorem hooks_wiring (k : HookCtors H) (environ : Environ) (c : ConfValue H)
    (m : GoMap H) (name env : String) (hm : c.hooksList = some m) :
    (∃ m' : GoMap H,
        c.AddUserHooks k environ name env = some { hooksList := some m', oneshot := c.oneshot }
        ∧ m'.get name =
          some (k.NewUserHooks environ (name ++ " init") (env ++ "_INIT_HOOK")
            (name ++ " exit") (env ++ "_EXIT_HOOK"))
        ∧ m' = (Conf.AddUserHooks k environ ⟨m, c.oneshot⟩ name env).hooksList)
    ∧ (∃ m' : GoMap H,
        c.AddHooks k environ = some { hooksList := some m', oneshot := c.oneshot }
        ∧ m'.get "iproute" =
          some (k.NewIPRouteHooks environ "iproute init" "ROUTES_INIT"
            "iproute exit" "ROUTES_EXIT")
        ∧ m' = (Conf.AddHooks k environ ⟨m, c.oneshot⟩).hooksList)
    ∧ (NewConf k environ).toValue.hooksList = some (NewConf k environ).hooksList
    ∧ (NewConf k environ).hooksList.get "pre" =
        some (k.NewUserHooks environ "pre init" "PRE_INIT_HOOK" "pre exit" "PRE_EXIT_HOOK")
    ∧ (NewConf k environ).hooksList.get "post" =
        some (k.NewUserHooks environ "post init" "POST_INIT_HOOK" "post exit" "POST_EXIT_HOOK")
    ∧ (NewConf k environ).hooksList.get "iproute" =
        some (k.NewIPRouteHooks environ "iproute init" "ROUTES_INIT"
          "iproute exit" "ROUTES_EXIT")
    ∧ (∀ z : ConfValue H, z.hooksList = none →
        z.AddUserHooks k environ name env = none ∧ z.AddHooks k environ = none) := by
  refine ⟨?_, ?_, rfl, ?_, ?_, ?_, ?_⟩
  · refine ⟨(Conf.AddUserHooks k environ ⟨m, c.oneshot⟩ name env).hooksList, ?_, ?_, rfl⟩
    · simp [ConfValue.AddUserHooks, GoMap.assign, hm, Conf.AddUserHooks]
    · rw [AddUserHooks_get, if_pos rfl]
  · refine ⟨(Conf.AddHooks k environ ⟨m, c.oneshot⟩).hooksList, ?_, ?_, rfl⟩
    · simp [ConfValue.AddHooks, GoMap.assign, hm, Conf.AddHooks]
    · rw [AddHooks_get]; rfl
  · rw [NewConf_get]; rfl
  · rw [NewConf_get]; rfl
  · rw [NewConf_get]; rfl
  · intro z hz
    simp [ConfValue.AddUserHooks, ConfValue.AddHooks, GoMap.assign, hz]

/-- C6, amended, on the configuration `NewConf` builds with no variable set:
`AddUserHooks("extra", "EXTRA")` returns, and the registry then holds under
"extra" the User hook with the labels and variables of the claim. -/
theorem hooks_wiring_witness :
    defaultConf.toValue.hooksList = some defaultConf.hooksList
    ∧ ∃ m' : GoMap HookDesc,
        defaultConf.toValue.AddUserHooks descCtors emptyEnviron "extra" "EXTRA" =
          some { hooksList := some m', oneshot := false }
        ∧ m'.get "extra" =
          some (HookDesc.user "extra init" "EXTRA_INIT_HOOK" "extra exit" "EXTRA_EXIT_HOOK") :=
  ⟨rfl,
    (hooks_wiring descCtors emptyEnviron defaultConf.toValue defaultConf.hooksList
      "extra" "EXTRA" rfl).1.elim
      (fun m' hm' => ⟨m', hm'.1, hm'.2.1.trans (by decide)⟩)⟩

/-- C8, as the claim states it, fails: on the configuration `NewConf` builds,
the exported method `AddUserHooks("extra", "EXTRA")` adds the key "extra" to the
registry the caller holds. -/
theorem AddUserHooks_changes_registry :
    (NewConf descCtors emptyEnviron).hooksList.keys = ["post", "pre", "nat4", "iproute"]
    ∧ ((Op.AddUserHooks "extra" "EXTRA").call descCtors descOps emptyEnviron
          (NewConf descCtors emptyEnviron) (Exec.start 0)).1.hooksList.keys =
        ["extra", "post", "pre", "nat4", "iproute"]
    ∧ (NewConf descCtors emptyEnviron).hooksList.get "extra" = none
    ∧ ((Op.AddUserHooks "extra" "EXTRA").call descCtors descOps emptyEnviron
          (NewConf descCtors emptyEnviron) (Exec.start 0)).1.hooksList.get "extra" =
        some (HookDesc.user "extra init" "EXTRA_INIT_HOOK" "extra exit" "EXTRA_EXIT_HOOK")
    ∧ ((Op.AddUserHooks "extra" "EXTRA").call descCtors descOps emptyEnviron
          (NewConf descCtors emptyEnviron) (Exec.start 0)).1.hooksList ≠
        (NewConf descCtors emptyEnviron).hooksList := by
  decide

/-- C8, amended: `Oneshot`, `RunInitHooks`, `RunExitHooks`, `RunInitHook`,
`RunExitHook` and `Log` leave the registry and the one-shot flag of the `Conf`
they are called on as they were; `AddUserHooks` and `AddHooks` leave the flag as
it was and write the registry: `AddUserHooks(name, env)` sets the entry under
`name` and leaves every other key as it was, `AddHooks` sets the entries under
"iproute" and "nat4" and leaves every other key as it was. -/
theorem exported_methods_frame (k : HookCtors H) (ops : HookOps H W) (environ : Environ)
    (conf : Conf H) (s : Exec W H) :
    (∀ op : Op, op.registers = false → (op.call k ops environ conf s).1 = conf)
    ∧ (∀ op : Op, (op.call k ops environ conf s).1.oneshot = conf.oneshot)
    ∧ (∀ name env key : String,
        ((Op.AddUserHooks name env).call k ops environ conf s).1.hooksList.get key =
          if key = name then
            some (k.NewUserHooks environ (name ++ " init") (env ++ "_INIT_HOOK")
              (name ++ " exit") (env ++ "_EXIT_HOOK"))
          else conf.hooksList.get key)
    ∧ (∀ key : String,
        (Op.AddHooks.call k ops environ conf s).1.hooksList.get key =
          if key = "nat4" then some (k.NewNat4Hooks environ)
          else if key = "iproute" then
            some (k.NewIPRouteHooks environ "iproute init" "ROUTES_INIT"
              "iproute exit" "ROUTES_EXIT")
          else conf.hooksList.get key) := by
  refine ⟨?_, ?_, ?_, ?_⟩
  · intro op hop
    cases op <;> first | rfl | (simp [Op.registers] at hop)
  · intro op
    cases op <;> rfl
  · intro name env key
    exact AddUserHooks_get k environ conf name env key
  · intro key
    exact AddHooks_get k environ conf key

/-- C8, amended, on `RunInitHooks`: the caller holds the same `Conf` after the
call. -/
theorem exported_methods_frame_witness :
    (Op.RunInitHooks.call descCtors descOps emptyEnviron defaultConf startExec).1 =
      defaultConf :=
  (exported_methods_frame descCtors descOps emptyEnviron defaultConf startExec).1
    Op.RunInitHooks rfl

end Wiring

/-! ## The diagnostic log -/

section Logging

variable {H W : Type}

theorem foldl_printf (f : String → String) (xs : List String) (s : Exec W H) :
    xs.foldl (fun s x => s.printf (f x)) s = { s with log := s.log ++ xs.map f } := by
  induction xs generalizing s with
  | nil => simp
  | cons x xs ih => rw [List.foldl_cons, ih]; simp [Exec.printf]

theorem foldl_descriptions (ops : HookOps H W) (m : GoMap H) (s : Exec W H) :
    m.foldl (fun s e =>
        (ops.String e.2).foldl (fun s x => s.printf ("\t- " ++ x ++ "\n")) s) s =
      { s with log := s.log ++
          m.flatMap (fun e => (ops.String e.2).map (fun x => "\t- " ++ x ++ "\n")) } := by
  induction m generalizing s with
  | nil => simp
  | cons e m ih =>
    rw [List.foldl_cons, ih, foldl_printf (fun x => "\t- " ++ x ++ "\n")]
    simp [List.flatMap_cons]

/-- What `Log` does to the state of a run. -/
theorem Log_eq (ops : HookOps H W) (conf : Conf H) (s : Exec W H) :
    conf.Log ops s = { s with log := s.log ++
      ("Current configuration:\n" :: modeRecord conf.oneshot ::
        descriptionRecords ops conf) } := by
  unfold Conf.Log
  rw [foldl_descriptions]
  cases conf.oneshot <;> simp [Exec.printf, Exec.println, modeRecord, descriptionRecords]

theorem descriptionRecords_length (ops : HookOps H W) (conf : Conf H) :
    (descriptionRecords ops conf).length =
      (conf.hooksList.map (fun e => (ops.String e.2).length)).sum := by
  simp [descriptionRecords, List.length_flatMap, Function.comp_def]

/-- C9, as the claim states it, fails: on the configuration `NewConf` builds
with no variable set, where the descriptions of the four hooks have 7 strings in
all, `Log` writes 9 records and not 8. -/
theorem Log_count_is_not_one_plus :
    (newLog (Exec.start 0)
        ((NewConf descCtors emptyEnviron).Log descOps (Exec.start 0))).length = 9
    ∧ 1 + ((NewConf descCtors emptyEnviron).hooksList.map
        (fun e => (descOps.String e.2).length)).sum = 8
    ∧ (newLog (Exec.start 0)
        ((NewConf descCtors emptyEnviron).Log descOps (Exec.start 0))).length ≠
      1 + ((NewConf descCtors emptyEnviron).hooksList.map
        (fun e => (descOps.String e.2).length)).sum := by
  decide

/-- C9, amended: `Log` writes a heading record "Current configuration:", then
exactly one record for the mode, which says one-shot is enabled if and only if
`Oneshot()` is true and disabled otherwise, then for every hook of the registry
one record per string of its description; the number of records is 2 plus the
sum over the registered hooks of the length of their description. `Log` invokes
no hook action. -/
theorem Log_records (ops : HookOps H W) (conf : Conf H) (s : Exec W H) :
    (conf.Log ops s).log = s.log ++ newLog s (conf.Log ops s)
    ∧ newLog s (conf.Log ops s) =
        "Current configuration:\n" :: modeRecord conf.Oneshot :: descriptionRecords ops conf
    ∧ (modeRecord conf.Oneshot = "\t- mode oneshot is enabled" ↔ conf.Oneshot = true)
    ∧ (modeRecord conf.Oneshot = "\t- mode oneshot is disabled" ↔ conf.Oneshot = false)
    ∧ (newLog s (conf.Log ops s)).length =
        2 + (conf.hooksList.map (fun e => (ops.String e.2).length)).sum
    ∧ (conf.Log ops s).calls = s.calls
    ∧ (conf.Log ops s).world = s.world := by
  have hlog : (conf.Log ops s).log = s.log ++
      ("Current configuration:\n" :: modeRecord conf.oneshot ::
        descriptionRecords ops conf) := by rw [Log_eq]
  have hnew := newLog_eq s _ _ hlog
  refine ⟨by rw [hnew]; exact hlog, hnew, ?_, ?_, ?_, by rw [Log_eq], by rw [Log_eq]⟩
  · cases h : conf.Oneshot <;> simp [modeRecord]
  · cases h : conf.Oneshot <;> simp [modeRecord]
  · rw [hnew, List.length_cons, List.length_cons, descriptionRecords_length]
    omega

/-- C9, amended, on the configuration `NewConf` builds with no variable set:
the nine records. -/
theorem Log_records_witness :
    newLog startExec (defaultConf.Log descOps startExec) =
      ["Current configuration:\n", "\t- mode oneshot is disabled",
       "\t- post init: POST_INIT_HOOK\n", "\t- post exit: POST_EXIT_HOOK\n",
       "\t- pre init: PRE_INIT_HOOK\n", "\t- pre exit: PRE_EXIT_HOOK\n",
       "\t- nat4\n",
       "\t- iproute init: ROUTES_INIT\n", "\t- iproute exit: ROUTES_EXIT\n"] :=
  (Log_records descOps defaultConf startExec).2.1.trans (by decide)

end Logging

end Setup
